import Mathlib

/-!
# Shallow embedding of the equity-data / RPS-ranking core

This file embeds, in Lean 4 over `ℚ`, the core computations of the
repository:

* `generate_rps.py` — the ranking batch job (`get_gain`,
  `fetch_and_calculate_rps`, and the rank / sort / top-list phase of `main`);
* `debug_rps.py` — the same percentile-rank computation on a sample;
* `data_fetcher.py` — the keyed expiring cache (`_get_from_cache` /
  `_save_to_cache`), the session gate (`_is_trading_time`), the market
  snapshot provider (`_get_market_spot_data`), the indicator pipeline
  (`get_stock_indicators`), and the synthetic-RPS writer
  (`update_rps_rankings`).

Machine floats of the source are modelled by exact rationals; `round(x, n)`
(Python / numpy / pandas round-half-to-even) is modelled exactly on `ℚ`.
-/

/-- Round a rational to the nearest integer, ties to even — the rounding used
by Python's `round` and numpy / pandas `.round`. -/
def roundHalfEven (x : ℚ) : ℤ :=
  if x - ⌊x⌋ < 1/2 then ⌊x⌋
  else if 1/2 < x - ⌊x⌋ then ⌊x⌋ + 1
  else if Even ⌊x⌋ then ⌊x⌋ else ⌊x⌋ + 1

/-- Python `round(x, 2)` of the source, on exact rationals. -/
def round2 (x : ℚ) : ℚ := (roundHalfEven (x * 100) : ℚ) / 100

/-- Python `round(x, 4)` of the source, on exact rationals. -/
def round4 (x : ℚ) : ℚ := (roundHalfEven (x * 10000) : ℚ) / 10000

theorem abs_roundHalfEven_sub_le (x : ℚ) : |(roundHalfEven x : ℚ) - x| ≤ 1/2 := by
  have hf : (⌊x⌋ : ℚ) ≤ x := Int.floor_le x
  have hf' : x < (⌊x⌋ : ℚ) + 1 := Int.lt_floor_add_one x
  unfold roundHalfEven
  split_ifs with h1 h2 h3
  · rw [abs_sub_comm, abs_of_nonneg (by linarith)]; linarith
  · rw [abs_of_nonneg (by push_cast; linarith)]; push_cast; linarith
  · push_neg at h1 h2
    rw [abs_sub_comm, abs_of_nonneg (by linarith)]; linarith
  · push_neg at h1 h2
    rw [abs_of_nonneg (by push_cast; linarith)]; push_cast; linarith

theorem abs_round4_sub_le (x : ℚ) : |round4 x - x| ≤ 1/20000 := by
  have h := abs_roundHalfEven_sub_le (x * 10000)
  unfold round4
  have heq : (roundHalfEven (x * 10000) : ℚ) / 10000 - x
      = ((roundHalfEven (x * 10000) : ℚ) - x * 10000) / 10000 := by ring
  rw [heq, abs_div, abs_of_pos (by norm_num : (0:ℚ) < 10000)]
  rw [div_le_div_iff₀ (by norm_num) (by norm_num)]
  linarith

/-!
## `generate_rps.py` — per-symbol gains

Inside `fetch_and_calculate_rps`, with `closes = df["收盘"].values` and
`current_close = float(closes[-1])`:

```python
def get_gain(days):
    if len(closes) > days:
        prev = float(closes[-(days+1)])
        if prev == 0: return 0.0
        return (current_close - prev) / prev
    return None
```
-/

/-- The reference close `closes[-(days+1)]`; the guard `len(closes) > days`
puts the Python negative index in range, where it denotes position
`len - (days+1)`. -/
def refClose (closes : List ℚ) (days : ℕ) : ℚ :=
  closes.getD (closes.length - (days + 1)) 0

/-- The latest close `closes[-1]`; in range whenever `closes` is nonempty. -/
def currentClose (closes : List ℚ) : ℚ := closes.getD (closes.length - 1) 0

/-- Function `get_gain` of `generate_rps.py` (`None` is `Option.none`). -/
def get_gain (closes : List ℚ) (days : ℕ) : Option ℚ :=
  if days < closes.length then
    if refClose closes days = 0 then some 0
    else some ((currentClose closes - refClose closes days) / refClose closes days)
  else none

/-!
## `generate_rps.py` / `debug_rps.py` — percentile rank (RPS)

`main` computes, for each window's column restricted to the rows with a
non-null gain (`mask = df_res[col_gain].notna()`):

```python
df_res.loc[mask, col_rps] = df_res.loc[mask, col_gain].rank(pct=True, ascending=True) * 100
df_res.loc[mask, col_rps] = df_res.loc[mask, col_rps].round(2)
```

(`debug_rps.py` line 81 is the same computation.)  pandas `rank` with its
default `method='average'` assigns to a value `g` occurring in the series the
mean of the 1-based positions of `g`'s tied block in the sorted series, which
is `#{y < g} + (#{y = g} + 1)/2`; `pct=True` divides by the series length.
-/

/-- pandas `Series.rank(pct=True, ascending=True)` (default
`method='average'`), evaluated at a value `g` of the gains series. -/
def pandasPctRank (gains : List ℚ) (g : ℚ) : ℚ :=
  ((gains.countP fun y => decide (y < g) : ℚ)
      + ((gains.count g : ℚ) + 1) / 2) / (gains.length : ℚ)

/-- The RPS value the batch writes for a symbol with gain `g`, relative to
the gains of the window's eligible population: `rank(pct=True) * 100`,
rounded to 2 decimals. -/
def computedRps (gains : List ℚ) (g : ℚ) : ℚ :=
  round2 (pandasPctRank gains g * 100)

theorem countP_le_split (l : List ℚ) (g : ℚ) :
    (l.countP fun y => decide (y ≤ g))
      = (l.countP fun y => decide (y < g)) + l.count g := by
  induction l with
  | nil => simp
  | cons a l ih =>
    simp only [List.countP_cons, List.count_cons, ih]
    rcases lt_trichotomy a g with h | h | h
    · simp only [decide_eq_true_eq, beq_iff_eq]
      rw [if_pos (le_of_lt h), if_pos h, if_neg (ne_of_lt h)]
      omega
    · subst h
      simp only [decide_eq_true_eq, beq_iff_eq]
      rw [if_pos (le_refl a), if_neg (lt_irrefl a)]
      simp
      omega
    · simp only [decide_eq_true_eq, beq_iff_eq]
      rw [if_neg (not_le.mpr h), if_neg (not_lt.mpr (le_of_lt h)), if_neg (ne_of_gt h)]
      omega

/-!
## The record flow of `generate_rps.py` `main`

A successful `fetch_and_calculate_rps` returns the dict
`{"code", "name", "close", "date", "gain_50", "gain_120", "gain_250"}`;
the rank phase adds `RPS_p` and `gain_p_pct` columns (absent gains stay
`NaN` in the DataFrame and become `None` in `final_list`).
-/

/-- The dict a successful `fetch_and_calculate_rps` returns. -/
structure FetchResult where
  code : String
  name : String
  close : ℚ
  date : String
  gain50 : Option ℚ
  gain120 : Option ℚ
  gain250 : Option ℚ
deriving DecidableEq, Repr

/-- Function `fetch_and_calculate_rps` of `generate_rps.py`: `hist` is the
fetched daily history as (date, close) rows, `none` when the fetch raised or
returned `None`; an empty or sub-50-row history also yields `None`. -/
def fetch_and_calculate_rps (code name : String)
    (hist : Option (List (String × ℚ))) : Option FetchResult :=
  match hist with
  | none => none
  | some rows =>
      if rows.length < 50 then none
      else
        some { code := code, name := name,
               close := currentClose (rows.map Prod.snd),
               date := (rows.getD (rows.length - 1) ("", 0)).1,
               gain50 := get_gain (rows.map Prod.snd) 50,
               gain120 := get_gain (rows.map Prod.snd) 120,
               gain250 := get_gain (rows.map Prod.snd) 250 }

/-- One row of `final_list`: the fetch dict plus the `RPS_p` and
`gain_p_pct` columns added by the rank phase (`None` where the window's
gain is missing — pandas `NaN` is mapped to `None` before the JSON dump). -/
structure RpsRecord where
  code : String
  name : String
  close : ℚ
  date : String
  gain50 : Option ℚ
  gain120 : Option ℚ
  gain250 : Option ℚ
  rps50 : Option ℚ
  rps120 : Option ℚ
  rps250 : Option ℚ
  gain50pct : Option ℚ
  gain120pct : Option ℚ
  gain250pct : Option ℚ
deriving DecidableEq, Repr

/-- The three lookback windows of the batch (`for p in [50, 120, 250]`). -/
inductive Window where
  | w50
  | w120
  | w250
deriving DecidableEq, Repr

/-- Gain column of a window. -/
def gainOf : Window → FetchResult → Option ℚ
  | .w50, r => r.gain50
  | .w120, r => r.gain120
  | .w250, r => r.gain250

/-- RPS column of a window on a `final_list` row. -/
def rpsOf : Window → RpsRecord → Option ℚ
  | .w50, r => r.rps50
  | .w120, r => r.rps120
  | .w250, r => r.rps250

/-- The rank phase of `main` (`generate_rps.py` lines 144–156): for each
window, the rows with a non-null gain (`mask`) get
`rank(pct=True, ascending=True) * 100`, rounded to 2 decimals, computed over
exactly that masked population; the other rows keep `NaN`/`None`.  (When a
window has no eligible row the source skips the column — every row then
carries `None` for it, which the `Option.map` below also yields.) -/
def addRps (results : List FetchResult) : List RpsRecord :=
  results.map fun r =>
    { code := r.code, name := r.name, close := r.close, date := r.date,
      gain50 := r.gain50, gain120 := r.gain120, gain250 := r.gain250,
      rps50 := r.gain50.map fun g => computedRps (results.filterMap (gainOf .w50)) g,
      rps120 := r.gain120.map fun g => computedRps (results.filterMap (gainOf .w120)) g,
      rps250 := r.gain250.map fun g => computedRps (results.filterMap (gainOf .w250)) g,
      gain50pct := r.gain50.map fun g => round2 (g * 100),
      gain120pct := r.gain120.map fun g => round2 (g * 100),
      gain250pct := r.gain250.map fun g => round2 (g * 100) }

/-- Python `x.get("RPS_120") or -1`: `or` yields `-1` when the left side is
falsy, i.e. `None` or `0.0`. -/
def orMinus1 : Option ℚ → ℚ
  | none => -1
  | some v => if v = 0 then -1 else v

/-- Sort key order of `final_list.sort(key=lambda x: (x.get("RPS_120") or -1), reverse=True)`:
`a` may come before `b` iff `a`'s key is ≥ `b`'s. -/
def fullLe (a b : RpsRecord) : Prop := orMinus1 b.rps120 ≤ orMinus1 a.rps120

instance : DecidableRel fullLe := fun a b =>
  inferInstanceAs (Decidable (orMinus1 b.rps120 ≤ orMinus1 a.rps120))

instance : IsTotal RpsRecord fullLe :=
  ⟨fun a b => le_total (orMinus1 b.rps120) (orMinus1 a.rps120)⟩

instance : IsTrans RpsRecord fullLe :=
  ⟨fun _ _ _ h1 h2 => le_trans h2 h1⟩

/-- Step 4.1 of `main`: the full `final_list`, sorted descending by
`RPS_120` (missing or `0.0` ranks keyed as `-1`); this is what is dumped to
`latest_rps.json`. -/
def sortFullList (rs : List RpsRecord) : List RpsRecord :=
  rs.insertionSort fullLe

/-- Python truthiness of `x.get(key)` for an optional float: `None` and
`0.0` are falsy. -/
def truthy : Option ℚ → Bool
  | none => false
  | some v => decide (v ≠ 0)

/-- Filter of step 4.2 of `main`: `x.get(key) and x[key] >= 90`. -/
def topPred (w : Window) (r : RpsRecord) : Bool :=
  truthy (rpsOf w r) && decide (90 ≤ (rpsOf w r).getD 0)

/-- Sort key order of `tops.sort(key=lambda x: x[key], reverse=True)`
(every row of `tops` has `some` rank, so `getD 0` reads exactly `x[key]`). -/
def topLe (w : Window) (a b : RpsRecord) : Prop :=
  (rpsOf w b).getD 0 ≤ (rpsOf w a).getD 0

instance : ∀ w, DecidableRel (topLe w) := fun w a b =>
  inferInstanceAs (Decidable ((rpsOf w b).getD 0 ≤ (rpsOf w a).getD 0))

instance (w : Window) : IsTotal RpsRecord (topLe w) :=
  ⟨fun a b => le_total ((rpsOf w b).getD 0) ((rpsOf w a).getD 0)⟩

instance (w : Window) : IsTrans RpsRecord (topLe w) :=
  ⟨fun _ _ _ h1 h2 => le_trans h2 h1⟩

/-- Step 4.2 of `main`: the per-window top list written to `top_rps.json`
under key `top_p` — the rows of `final_list` whose rank for the window is
truthy and ≥ 90, sorted descending by that rank. -/
def topList (w : Window) (finalList : List RpsRecord) : List RpsRecord :=
  (finalList.filter (topPred w)).insertionSort (topLe w)

/-!
## The keyed expiring cache of `data_fetcher.py`

Entries live in `self.cache = {cache_key: {"data": ..., "expire_at": ts}}`
with `cache_key = f"{code}_{data_type}"`; `_save_to_cache` stamps
`expire_at = now + CACHE_DURATION`.  The dict is modelled as an association
list where the most recent write for a key comes first.
-/

/-- Constant `CACHE_DURATION = 300` (seconds). -/
def CACHE_DURATION : ℚ := 300

/-- Cache key `f"{code}_{data_type}"`. -/
def cacheKey (code dataType : String) : String := code ++ "_" ++ dataType

/-- The in-memory cache `self.cache`; payload type `α` stands for the cached
JSON-like data. -/
structure FetcherCache (α : Type) where
  entries : List (String × α × ℚ)
deriving Repr

/-- Dict lookup `self.cache[cache_key]` (first, i.e. latest, write wins). -/
def lookupEntry {α : Type} (c : FetcherCache α) (key : String) : Option (α × ℚ) :=
  (c.entries.find? fun e => e.1 == key).map Prod.snd

/-- Method `_get_from_cache`: return the payload iff the key is present and
`now < expire_at`. -/
def _get_from_cache {α : Type} (c : FetcherCache α) (code dataType : String)
    (now : ℚ) : Option α :=
  match lookupEntry c (cacheKey code dataType) with
  | some (d, expireAt) => if now < expireAt then some d else none
  | none => none

/-- Method `_save_to_cache`: store the payload under the key with
`expire_at = now + CACHE_DURATION`. -/
def _save_to_cache {α : Type} (c : FetcherCache α) (code dataType : String)
    (d : α) (now : ℚ) : FetcherCache α :=
  ⟨(cacheKey code dataType, d, now + CACHE_DURATION) :: c.entries⟩

/-- The cached-getter pattern of `get_stock_indicators` /
`get_stock_intraday`: try `_get_from_cache`; on a miss compute the payload,
`_save_to_cache` it and return it.  Result: (payload, new cache state,
whether the underlying fetch/recomputation ran).  The source guards the hit
with Python truthiness (`if cached_data:`), and only ever caches truthy
(non-empty) payloads, on which the `Option` test below agrees. -/
def cachedGet {α : Type} (c : FetcherCache α) (code dataType : String)
    (now : ℚ) (compute : α) : α × FetcherCache α × Bool :=
  match _get_from_cache c code dataType now with
  | some d => (d, c, false)
  | none => (compute, _save_to_cache c code dataType compute now, true)

/-!
## The session gate `_is_trading_time` of `data_fetcher.py`

Inputs of the embedding: `weekday` (Monday = 0 as in Python), `secOfDay`
(seconds since local midnight, the resolution of the `now.time()`
comparisons), and `holiday`: `some b` when `chinese_calendar` is importable
and `is_holiday(now)` returned `b`, `none` when the library is unavailable
or the call raised (the source's bare `except: pass`).
-/

/-- Morning session bounds 09:15–11:30 and afternoon 13:00–15:00, as
seconds since midnight. -/
def inSessionWindow (secOfDay : ℕ) : Bool :=
  (decide (9 * 3600 + 15 * 60 ≤ secOfDay) && decide (secOfDay ≤ 11 * 3600 + 30 * 60))
    || (decide (13 * 3600 ≤ secOfDay) && decide (secOfDay ≤ 15 * 3600))

/-- Method `_is_trading_time`. -/
def _is_trading_time (weekday : ℕ) (secOfDay : ℕ) (holiday : Option Bool) : Bool :=
  if 5 ≤ weekday then false
  else if holiday = some true then false
  else inSessionWindow secOfDay

/-- The weekday-plus-time-window check alone (the degraded mode the spec
names for an unavailable holiday calendar). -/
def weekdayWindowCheck (weekday : ℕ) (secOfDay : ℕ) : Bool :=
  decide (weekday < 5) && inSessionWindow secOfDay

/-!
## The market snapshot provider `_get_market_spot_data` of `data_fetcher.py`

State: `self.market_spot_data` (the last full-market quote table or `None`)
and `self.market_spot_time` (its capture timestamp).  The outbound
`ak.stock_zh_a_spot_em()` call either raises (`FetchOutcome.exc`) or returns
a table that may be `None` or empty.
-/

/-- One row of the full-market quote table (fields beyond identity and price
play no role in the provider's control flow). -/
structure SpotRow where
  code : String
  name : String
  price : ℚ
deriving DecidableEq, Repr

/-- Provider state: `(self.market_spot_data, self.market_spot_time)`. -/
structure SpotState where
  marketSpotData : Option (List SpotRow)
  marketSpotTime : ℚ
deriving DecidableEq, Repr

/-- Outcome of the outbound akshare call: a raised exception, or a returned
table (`none` = Python `None`, `some []` = an empty DataFrame). -/
inductive FetchOutcome where
  | ok (table : Option (List SpotRow))
  | exc
deriving DecidableEq, Repr

/-- TTL selection of `_get_market_spot_data`:
`cache_duration = 60 if is_trading else 72000`. -/
def spotCacheDuration (isTrading : Bool) : ℚ := if isTrading then 60 else 72000

/-- The refresh path of `_get_market_spot_data` (reached when there is no
live cached table): with akshare available, a nonempty fetched table is
stored and returned; an empty/`None` result or an exception returns the old
`self.market_spot_data` unchanged when present, else `None`.  With akshare
unavailable the function falls through to `return None` without fetching.
Result: (returned table, new state, whether the outbound fetch ran). -/
def spotRefresh (st : SpotState) (nowTs : ℚ) (akshareAvailable : Bool)
    (fetch : FetchOutcome) : Option (List SpotRow) × SpotState × Bool :=
  if akshareAvailable then
    match fetch with
    | .ok (some rows) =>
        if rows.isEmpty then (st.marketSpotData, st, true)
        else (some rows, ⟨some rows, nowTs⟩, true)
    | .ok none => (st.marketSpotData, st, true)
    | .exc => (st.marketSpotData, st, true)
  else (none, st, false)

/-- Method `_get_market_spot_data`: serve the cached table while its
session-dependent TTL has not elapsed, otherwise refresh. -/
def _get_market_spot_data (st : SpotState) (isTrading : Bool) (nowTs : ℚ)
    (akshareAvailable : Bool) (fetch : FetchOutcome) :
    Option (List SpotRow) × SpotState × Bool :=
  match st.marketSpotData with
  | some d =>
      if nowTs - st.marketSpotTime < spotCacheDuration isTrading then (some d, st, false)
      else spotRefresh st nowTs akshareAvailable fetch
  | none => spotRefresh st nowTs akshareAvailable fetch

/-!
## The synthetic-RPS writer `update_rps_rankings` of `data_fetcher.py`

For every stock of the universe it draws
`round(random.uniform(50, 99) if random.random() > 0.8 else random.uniform(1, 80), 2)`
three times (RPS_50/120/250), sorts by `RPS_120` descending, writes the full
list to `output/latest_rps.json` and the first 100 records to
`output/top_rps.json`.  The `random` module is modelled as a stream
`rand : ℕ → ℚ` of draws of `random.random()` in `[0, 1)`, consumed in
source order: per stock six draws (for each of the three values, first the
branch test, then the uniform's draw). -/

/-- Python `random.uniform(a, b)` given the underlying `random.random()`
draw `r`. -/
def pyUniform (a b r : ℚ) : ℚ := a + (b - a) * r

/-- One synthetic RPS value of `update_rps_rankings`: `r0` is the
`random.random()` branch draw, `r1` the uniform's draw. -/
def synthRps (r0 r1 : ℚ) : ℚ :=
  round2 (if 4/5 < r0 then pyUniform 50 99 r1 else pyUniform 1 80 r1)

/-- One record of the list `update_rps_rankings` persists. -/
structure SynthRpsRecord where
  code : String
  name : String
  rps50 : ℚ
  rps120 : ℚ
  rps250 : ℚ
  updatedAt : String
deriving DecidableEq, Repr

/-- Sort key order of `results.sort(key=lambda x: x["RPS_120"], reverse=True)`. -/
def synthLe (a b : SynthRpsRecord) : Prop := b.rps120 ≤ a.rps120

instance : DecidableRel synthLe := fun a b =>
  inferInstanceAs (Decidable (b.rps120 ≤ a.rps120))

instance : IsTotal SynthRpsRecord synthLe := ⟨fun a b => le_total b.rps120 a.rps120⟩

instance : IsTrans SynthRpsRecord synthLe := ⟨fun _ _ _ h1 h2 => le_trans h2 h1⟩

/-- Method `update_rps_rankings`: the pair of lists it dumps to
`output/latest_rps.json` (full, `RPS_120`-descending) and
`output/top_rps.json` (`results[:100]`).  `stocks` is the
(code, name) universe from `self.stock_df`, `today` the
`datetime.now().strftime("%Y-%m-%d")` stamp.  No price history is consulted:
every RPS field comes from the `rand` stream alone. -/
def update_rps_rankings (stocks : List (String × String)) (rand : ℕ → ℚ)
    (today : String) : List SynthRpsRecord × List SynthRpsRecord :=
  let results := (List.range stocks.length).map fun j =>
    { code := (stocks.getD j ("", "")).1,
      name := (stocks.getD j ("", "")).2,
      rps50 := synthRps (rand (6 * j)) (rand (6 * j + 1)),
      rps120 := synthRps (rand (6 * j + 2)) (rand (6 * j + 3)),
      rps250 := synthRps (rand (6 * j + 4)) (rand (6 * j + 5)),
      updatedAt := today : SynthRpsRecord }
  let sorted := results.insertionSort synthLe
  (sorted, sorted.take 100)

/-!
## The indicator pipeline `get_stock_indicators` of `data_fetcher.py`

After the cache check (the `cachedGet` pattern above) the method fetches
400 calendar days of daily OHLCV, bails out with `{}` when the history is
`None` or shorter than 120 rows, and otherwise assembles the indicator
bundle.  pandas floats are modelled on `ℚ`; the single float `sqrt` of
`Series.std()` is abstracted as a parameter `sqrtQ`.
-/

/-- One daily OHLCV row (renamed columns of `ak.stock_zh_a_hist`). -/
structure OhlcRow where
  date : String
  openPrice : ℚ
  close : ℚ
  high : ℚ
  low : ℚ
  volume : ℚ
deriving DecidableEq, Repr

/-- Series `.tail(n)`. -/
def tailN {α : Type} (n : ℕ) (l : List α) : List α := l.drop (l.length - n)

/-- Series `.max()` of a nonempty series (`0` on the empty series, which the
guarded call sites never pass). -/
def seriesMax : List ℚ → ℚ
  | [] => 0
  | x :: xs => xs.foldl max x

/-- Series `.min()` of a nonempty series. -/
def seriesMin : List ℚ → ℚ
  | [] => 0
  | x :: xs => xs.foldl min x

/-- Series `.mean()` (`ℚ` division by zero yields `0` where pandas would
yield `NaN`; the guarded call sites pass nonempty series). -/
def seriesMean (l : List ℚ) : ℚ := l.sum / (l.length : ℚ)

/-- Series `.var()` with pandas' default `ddof=1`. -/
def sampleVar (l : List ℚ) : ℚ :=
  ((l.map fun x => (x - seriesMean l) ^ 2).sum) / ((l.length : ℚ) - 1)

/-- The last entry of `Series.rolling(window=w).mean()` followed by
`safe_float` (`NaN`, produced while fewer than `w` observations exist,
becomes `0.0`). -/
def rollingMeanLast (w : ℕ) (xs : List ℚ) : ℚ :=
  if xs.length < w then 0 else (tailN w xs).sum / (w : ℚ)

/-- Tail recursion of `Series.ewm(span, adjust=False).mean()`:
`y_t = (1 - a) * y_(t-1) + a * x_t`. -/
def ewmaGo (a : ℚ) (prev : ℚ) : List ℚ → List ℚ
  | [] => []
  | x :: rest => ((1 - a) * prev + a * x) :: ewmaGo a ((1 - a) * prev + a * x) rest

/-- Series `.ewm(span=span, adjust=False).mean()`: `y_0 = x_0` and
`a = 2 / (span + 1)`. -/
def ewma (span : ℕ) : List ℚ → List ℚ
  | [] => []
  | x :: rest => x :: ewmaGo (2 / ((span : ℚ) + 1)) x rest

/-- The `dif` column: `EMA12 - EMA26` of the closes. -/
def difSeries (closes : List ℚ) : List ℚ :=
  List.zipWith (fun a b => a - b) (ewma 12 closes) (ewma 26 closes)

/-- The `dea` column: 9-span EWMA of `dif`. -/
def deaSeries (closes : List ℚ) : List ℚ := ewma 9 (difSeries closes)

/-- The `macd` column: `2 * (dif - dea)`. -/
def macdSeries (closes : List ℚ) : List ℚ :=
  List.zipWith (fun d e => 2 * (d - e)) (difSeries closes) (deaSeries closes)

/-- The `macd_30d` payload: (date, dif, dea, macd) of the last 30 rows. -/
def macd30Of (rows : List OhlcRow) : List (String × ℚ × ℚ × ℚ) :=
  let closes := rows.map OhlcRow.close
  let joined := List.zipWith (fun r t => (r.date, t))
    rows
    (List.zipWith (fun d p => (d, p))
      (difSeries closes)
      (List.zipWith (fun e m => (e, m)) (deaSeries closes) (macdSeries closes)))
  tailN 30 joined

/-- Bin edges of `pd.cut(last_120_close, bins=10)` over a series with
minimum `mn` and maximum `mx`: 11 edges of 10 right-closed intervals.  When
`mn < mx` pandas takes `linspace(mn, mx, 11)` and lowers only the first edge
by 0.1% of the range so the minimum falls inside the first interval; when
`mn = mx` it widens both ends by `0.001 * abs(end)` (or the absolute amount
`0.001` for a zero end) before taking the `linspace`. -/
def chipEdges (mn mx : ℚ) (i : ℕ) : ℚ :=
  if mn = mx then
    (mn - (if mn = 0 then 1/1000 else |mn| / 1000))
      + (i : ℚ) * (((mx + (if mx = 0 then 1/1000 else |mx| / 1000))
          - (mn - (if mn = 0 then 1/1000 else |mn| / 1000))) / 10)
  else if i = 0 then mn - (mx - mn) / 1000
  else mn + (i : ℚ) * ((mx - mn) / 10)

/-- Membership of a close in bucket `i` (buckets are right-closed). -/
def inChipBucket (mn mx : ℚ) (i : ℕ) (x : ℚ) : Bool :=
  decide (chipEdges mn mx i < x) && decide (x ≤ chipEdges mn mx (i + 1))

/-- The chip distribution of `get_stock_indicators`:
`pd.cut(closes, bins=10).value_counts(normalize=True).sort_index()` with each
fraction rounded to 4 decimals — the list of the 10 bucket fractions in
ascending bucket order. -/
def chipDist (closes : List ℚ) : List ℚ :=
  (List.range 10).map fun i =>
    round4 (((closes.countP
        (inChipBucket (seriesMin closes) (seriesMax closes) i) : ℚ))
      / (closes.length : ℚ))

/-- RPS lookup payload `rps_info` merged into the bundle (from
`get_rps_value`, absent fields `None`). -/
structure RpsInfo where
  rps50 : Option ℚ
  rps120 : Option ℚ
  rps250 : Option ℚ
deriving DecidableEq, Repr

/-- The result dict of a successful `get_stock_indicators` run. -/
structure IndicatorBundle where
  ma5 : ℚ
  ma10 : ℚ
  ma20 : ℚ
  ma30 : ℚ
  ma60 : ℚ
  ma120 : ℚ
  macd30 : List (String × ℚ × ℚ × ℚ)
  high120 : ℚ
  low120 : ℚ
  rps50 : Option ℚ
  rps120 : Option ℚ
  rps250 : Option ℚ
  chipDistribution : List ℚ
  decayCoef : ℚ
  capitalFlow : Option Unit
deriving DecidableEq, Repr

/-- Return value of `get_stock_indicators`: a bundle, the bare `{}` that
signals a `None`/short history, or the `{"error": ...}` dict of the outer
`except` arm. -/
inductive IndicatorResult where
  | bundle (b : IndicatorBundle)
  | insufficientData
  | err (msg : String)
deriving DecidableEq, Repr

/-- The bundle assembled from a history of at least 120 rows.  `sqrtQ`
abstracts the float square root inside `Series.std()` (the only
non-rational operation of the method); `capital.flow` is always `None` in
the source (the fund-flow probe never assigns it). -/
def bundleOf (sqrtQ : ℚ → ℚ) (rpsInfo : RpsInfo) (rows : List OhlcRow) :
    IndicatorBundle :=
  let closes := rows.map OhlcRow.close
  let vols := tailN 120 (rows.map OhlcRow.volume)
  { ma5 := rollingMeanLast 5 closes,
    ma10 := rollingMeanLast 10 closes,
    ma20 := rollingMeanLast 20 closes,
    ma30 := rollingMeanLast 30 closes,
    ma60 := rollingMeanLast 60 closes,
    ma120 := rollingMeanLast 120 closes,
    macd30 := macd30Of rows,
    high120 := seriesMax (tailN 120 (rows.map OhlcRow.high)),
    low120 := seriesMin (tailN 120 (rows.map OhlcRow.low)),
    rps50 := rpsInfo.rps50,
    rps120 := rpsInfo.rps120,
    rps250 := rpsInfo.rps250,
    chipDistribution := chipDist (tailN 120 closes),
    decayCoef := round4 (sqrtQ (sampleVar vols) / seriesMean vols),
    capitalFlow := none }

/-- Method `get_stock_indicators` after its cache check (the cache layer is
the `cachedGet` pattern above): `hist` is the fetched daily history, `none`
when akshare returned `None`. -/
def get_stock_indicators (sqrtQ : ℚ → ℚ) (rpsInfo : RpsInfo)
    (hist : Option (List OhlcRow)) : IndicatorResult :=
  match hist with
  | none => .insufficientData
  | some rows =>
      if rows.length < 120 then .insufficientData
      else .bundle (bundleOf sqrtQ rpsInfo rows)

/-!
## Claim theorems
-/

/-- C10: for every lookback window `N` the batch's per-symbol gain
computation is total — with at most `N` closes the window's gain is `None`
(and any window with more than `N` closes still yields a gain, so a symbol
short of one window stays eligible for shorter ones); with a zero reference
close the gain is `0.0` rather than a division error; otherwise it is
`(latest - ref) / ref`. -/
theorem get_gain_totality :
    (∀ (closes : List ℚ) (days : ℕ), closes.length ≤ days →
        get_gain closes days = none)
    ∧ (∀ (closes : List ℚ) (days : ℕ), days < closes.length →
        refClose closes days = 0 → get_gain closes days = some 0)
    ∧ (∀ (closes : List ℚ) (days : ℕ), days < closes.length →
        refClose closes days ≠ 0 →
        get_gain closes days
          = some ((currentClose closes - refClose closes days) / refClose closes days))
    ∧ (∀ (closes : List ℚ) (days : ℕ), days < closes.length →
        ∃ q, get_gain closes days = some q) := by
  refine ⟨fun closes days h => ?_, fun closes days h h0 => ?_,
    fun closes days h h0 => ?_, fun closes days h => ?_⟩
  · simp [get_gain, not_lt.mpr h]
  · simp [get_gain, h, h0]
  · simp [get_gain, h, h0]
  · by_cases h0 : refClose closes days = 0
    · exact ⟨0, by simp [get_gain, h, h0]⟩
    · exact ⟨(currentClose closes - refClose closes days) / refClose closes days,
        by simp [get_gain, h, h0]⟩

/-- C5: the session gate reports an active session exactly on a weekday
(Monday–Friday) that the holiday calendar (when consulted successfully) does
not flag, at a time of day inside 09:15–11:30 or 13:00–15:00; with the
calendar unavailable it degrades to exactly the weekday-plus-time-window
check. -/
theorem session_gate_spec :
    (∀ (w s : ℕ) (hol : Option Bool),
        _is_trading_time w s hol = true
          ↔ (w < 5 ∧ hol ≠ some true
              ∧ ((9 * 3600 + 15 * 60 ≤ s ∧ s ≤ 11 * 3600 + 30 * 60)
                  ∨ (13 * 3600 ≤ s ∧ s ≤ 15 * 3600))))
    ∧ (∀ (w s : ℕ), _is_trading_time w s none = weekdayWindowCheck w s) := by
  constructor
  · intro w s hol
    by_cases h1 : 5 ≤ w
    · simp only [_is_trading_time, if_pos h1]
      simp
      omega
    · by_cases h2 : hol = some true
      · simp [_is_trading_time, if_neg h1, h2]
      · simp only [_is_trading_time, if_neg h1, if_neg h2, inSessionWindow]
        push_neg at h1
        simp [h1, h2]
  · intro w s
    by_cases h1 : 5 ≤ w
    · simp [_is_trading_time, weekdayWindowCheck, if_pos h1, not_lt.mpr h1]
    · simp [_is_trading_time, weekdayWindowCheck, if_neg h1, not_le.mp h1]

/-- C4: the snapshot cache TTL is 60 seconds during an active session and
72000 seconds outside trading hours, and a cached snapshot younger than the
applicable TTL is returned as-is, without a fetch and without any state
change. -/
theorem spot_ttl_spec (st : SpotState) (isTrading : Bool) (nowTs : ℚ)
    (akshareAvailable : Bool) (fetch : FetchOutcome) (d : List SpotRow)
    (hd : st.marketSpotData = some d)
    (hage : nowTs - st.marketSpotTime < spotCacheDuration isTrading) :
    _get_market_spot_data st isTrading nowTs akshareAvailable fetch
        = (some d, st, false)
    ∧ spotCacheDuration true = 60 ∧ spotCacheDuration false = 72000 := by
  refine ⟨?_, rfl, rfl⟩
  simp [_get_market_spot_data, hd, hage]

/-- Witness for C4 at a concrete one-row snapshot of age 0 in a trading
session. -/
theorem spot_ttl_spec_witness :
    _get_market_spot_data ⟨some [⟨"600519", "GZMT", 1500⟩], 0⟩ true 0 true .exc
        = (some [⟨"600519", "GZMT", 1500⟩], ⟨some [⟨"600519", "GZMT", 1500⟩], 0⟩, false)
    ∧ spotCacheDuration true = 60 ∧ spotCacheDuration false = 72000 :=
  spot_ttl_spec ⟨some [⟨"600519", "GZMT", 1500⟩], 0⟩ true 0 true .exc
    [⟨"600519", "GZMT", 1500⟩] rfl (by norm_num [spotCacheDuration])

/-- C3: when the cached snapshot (if any) has outlived its TTL and the
full-market fetch raises, returns `None` or returns an empty table, the
provider hands back `self.market_spot_data` unchanged — the previous
snapshot when one exists (with the state, hence its capture time, intact),
and `None` (absence, not fabricated data) when none exists. -/
theorem spot_stale_fallback (st : SpotState) (isTrading : Bool) (nowTs : ℚ)
    (fetch : FetchOutcome)
    (hfail : fetch = .exc ∨ fetch = .ok none ∨ fetch = .ok (some []))
    (hexp : ∀ d, st.marketSpotData = some d →
        ¬ nowTs - st.marketSpotTime < spotCacheDuration isTrading) :
    _get_market_spot_data st isTrading nowTs true fetch
      = (st.marketSpotData, st, true) := by
  have href : spotRefresh st nowTs true fetch = (st.marketSpotData, st, true) := by
    rcases hfail with h | h | h <;> subst h <;> simp [spotRefresh]
  cases hst : st.marketSpotData with
  | none => simpa [_get_market_spot_data, hst] using href
  | some d =>
      have := hexp d hst
      simpa [_get_market_spot_data, hst, this] using href

/-- Witness for C3: a stale snapshot captured at 0 looked up at 80000 out of
session, with the fetch raising. -/
theorem spot_stale_fallback_witness :
    _get_market_spot_data ⟨some [⟨"600519", "GZMT", 1500⟩], 0⟩ false 80000 true .exc
      = ((⟨some [⟨"600519", "GZMT", 1500⟩], 0⟩ : SpotState).marketSpotData,
         ⟨some [⟨"600519", "GZMT", 1500⟩], 0⟩, true) :=
  spot_stale_fallback ⟨some [⟨"600519", "GZMT", 1500⟩], 0⟩ false 80000 .exc
    (Or.inl rfl) (by intro d hd; norm_num [spotCacheDuration])

/-- C6: a history shorter than 120 observations makes the indicator
pipeline return the explicit empty marker (`{}`), never a bundle. -/
theorem insufficient_history_spec (sqrtQ : ℚ → ℚ) (rpsInfo : RpsInfo)
    (rows : List OhlcRow) (h : rows.length < 120) :
    get_stock_indicators sqrtQ rpsInfo (some rows) = .insufficientData := by
  simp [get_stock_indicators, h]

/-- Witness for C6 at the spec's 80-day scenario. -/
theorem insufficient_history_spec_witness :
    get_stock_indicators (fun q => q) ⟨none, none, none⟩
        (some (List.replicate 80 ⟨"2024-01-01", 1, 1, 1, 1, 1⟩))
      = .insufficientData :=
  insufficient_history_spec (fun q => q) ⟨none, none, none⟩
    (List.replicate 80 ⟨"2024-01-01", 1, 1, 1, 1, 1⟩) (by simp)

/-- C9: when, after a first lookup, the key's cache entry is live past the
second lookup's time (both lookups inside one TTL window), the second
lookup returns exactly the first lookup's payload, leaves the cache
untouched, and does not run the underlying fetch/recomputation. -/
theorem cache_second_lookup (α : Type) (c : FetcherCache α)
    (code dataType : String) (t1 t2 : ℚ) (compute : α) (d : α) (e : ℚ)
    (hentry : lookupEntry (cachedGet c code dataType t1 compute).2.1
        (cacheKey code dataType) = some (d, e))
    (ht2 : t2 < e) :
    cachedGet ((cachedGet c code dataType t1 compute).2.1) code dataType t2 compute
      = ((cachedGet c code dataType t1 compute).1,
         (cachedGet c code dataType t1 compute).2.1, false) := by
  rcases hfirst : _get_from_cache c code dataType t1 with _ | d0
  · -- first lookup missed: the entry in the post-save cache is the stored payload
    have hc1 : (cachedGet c code dataType t1 compute).2.1
        = _save_to_cache c code dataType compute t1 := by
      simp [cachedGet, hfirst]
    have hres : (cachedGet c code dataType t1 compute).1 = compute := by
      simp [cachedGet, hfirst]
    have hlook : lookupEntry (_save_to_cache c code dataType compute t1)
        (cacheKey code dataType) = some (compute, t1 + CACHE_DURATION) := by
      simp [lookupEntry, _save_to_cache, List.find?]
    rw [hc1] at hentry ⊢
    rw [hlook] at hentry
    have hd : d = compute := by injection hentry with h1; exact (Prod.mk.injEq _ _ _ _ ▸ h1 : _ ∧ _).1.symm
    have he : e = t1 + CACHE_DURATION := by injection hentry with h1; exact (Prod.mk.injEq _ _ _ _ ▸ h1 : _ ∧ _).2.symm
    rw [hres]
    simp [cachedGet, _get_from_cache, hlook, ← he, ht2]
  · -- first lookup hit: the cache is unchanged and already holds (d0, e)
    have hc1 : (cachedGet c code dataType t1 compute).2.1 = c := by
      simp [cachedGet, hfirst]
    have hres : (cachedGet c code dataType t1 compute).1 = d0 := by
      simp [cachedGet, hfirst]
    rw [hc1] at hentry ⊢
    have hd0 : d0 = d := by
      rcases hlook : lookupEntry c (cacheKey code dataType) with _ | de
      · simp [_get_from_cache, hlook] at hfirst
      · rw [hlook] at hentry
        rcases de with ⟨dd, ee⟩
        simp only [_get_from_cache, hlook] at hfirst
        rcases lt_or_le t1 ee with hlt | hge
        · rw [if_pos hlt] at hfirst
          injection hentry with h1
          cases hfirst
          exact congrArg Prod.fst h1
        · rw [if_neg (not_lt.mpr hge)] at hfirst
          cases hfirst
    rw [hres, hd0]
    simp [cachedGet, _get_from_cache, hentry, ht2]

/-- Witness for C9: an indicator payload stored at time 0 and looked up
again at time 200, inside the 300-second TTL window. -/
theorem cache_second_lookup_witness :
    cachedGet ((cachedGet (⟨[]⟩ : FetcherCache ℚ) "600519" "indicators" 0 42).2.1)
        "600519" "indicators" 200 42
      = ((cachedGet (⟨[]⟩ : FetcherCache ℚ) "600519" "indicators" 0 42).1,
         (cachedGet (⟨[]⟩ : FetcherCache ℚ) "600519" "indicators" 0 42).2.1, false) :=
  cache_second_lookup ℚ ⟨[]⟩ "600519" "indicators" 0 200 42 42 (0 + CACHE_DURATION)
    (by simp [cachedGet, _get_from_cache, _save_to_cache, lookupEntry, cacheKey, List.find?])
    (by norm_num [CACHE_DURATION])

/-- C2 is a code bug: `update_rps_rankings` persists RPS values drawn from
`random.uniform`, not values derived from close-price histories — with the
all-zeros random stream the single-stock run persists `RPS_50 = 1.0`, with
the all-halves stream `RPS_50 = 40.5`; the persisted value varies with the
random stream alone (no history input exists in its computation), which
contradicts the no-fabrication contract. -/
theorem update_rps_writes_random_values :
    ((update_rps_rankings [("600519", "GZMT")] (fun _ => 0) "2025-01-01").1.map
        SynthRpsRecord.rps50 = [1])
    ∧ ((update_rps_rankings [("600519", "GZMT")] (fun _ => 1/2) "2025-01-01").1.map
        SynthRpsRecord.rps50 = [81/2])
    ∧ (1 : ℚ) ≠ 81/2 := by
  refine ⟨?_, ?_, by norm_num⟩
  · norm_num [update_rps_rankings, synthRps, pyUniform, round2, roundHalfEven,
      List.insertionSort, List.orderedInsert, List.range_succ]
  · norm_num [update_rps_rankings, synthRps, pyUniform, round2, roundHalfEven,
      List.insertionSort, List.orderedInsert, List.range_succ]

theorem pandasPctRank_nodup (gains : List ℚ) (g : ℚ) (hg : g ∈ gains)
    (hnd : gains.Nodup) :
    pandasPctRank gains g
      = ((gains.countP fun y => decide (y ≤ g) : ℚ)) / (gains.length : ℚ) := by
  unfold pandasPctRank
  rw [countP_le_split, List.count_eq_one_of_mem hnd hg]
  push_cast
  ring

theorem round2_hundred : round2 100 = 100 := by
  norm_num [round2, roundHalfEven]

/-- C1 (amended): when all eligible gains of a window are distinct, the
computed percentile rank is the fraction of the population with gain ≤ the
symbol's, times 100, rounded to 2 decimals; in particular the highest
gainer scores exactly 100.0.  (With tied gains the source's pandas
average-method rank differs from the fraction-based formula — see the
counterexample.)  The 3-symbol 20% / 5% / −10% scenario computes
100.0 / 66.67 / 33.33. -/
theorem rps_rank_spec :
    (∀ (gains : List ℚ) (g : ℚ), g ∈ gains → gains.Nodup →
        computedRps gains g
            = round2 (100 * ((gains.countP fun y => decide (y ≤ g) : ℚ))
                / (gains.length : ℚ))
          ∧ ((∀ y ∈ gains, y ≤ g) → computedRps gains g = 100))
    ∧ (computedRps [1/5, 1/20, -1/10] (1/5) = 100
        ∧ computedRps [1/5, 1/20, -1/10] (1/20) = 6667/100
        ∧ computedRps [1/5, 1/20, -1/10] (-1/10) = 3333/100) := by
  constructor
  · intro gains g hg hnd
    have hfrac : computedRps gains g
        = round2 (100 * ((gains.countP fun y => decide (y ≤ g) : ℚ))
            / (gains.length : ℚ)) := by
      unfold computedRps
      rw [pandasPctRank_nodup gains g hg hnd]
      congr 1
      ring
    refine ⟨hfrac, fun hmax => ?_⟩
    have hlen : (gains.length : ℚ) ≠ 0 := by
      have : 0 < gains.length := List.length_pos.mpr (List.ne_nil_of_mem hg)
      positivity
    have hcnt : (gains.countP fun y => decide (y ≤ g)) = gains.length := by
      rw [List.countP_eq_length]
      intro a ha
      simpa using hmax a ha
    rw [hfrac, hcnt, mul_div_assoc, div_self hlen, mul_one, round2_hundred]
  · refine ⟨?_, ?_, ?_⟩ <;>
      norm_num [computedRps, pandasPctRank, round2, roundHalfEven,
        List.countP_cons, List.count_cons]

/-- Witness for C1's general part at the distinct population
20% / 5% / −10%, taken at the middle symbol. -/
theorem rps_rank_spec_witness :
    computedRps [1/5, 1/20, -1/10] (1/20)
        = round2 (100 * ((([1/5, 1/20, -1/10] : List ℚ).countP
            fun y => decide (y ≤ 1/20) : ℚ))
          / (([1/5, 1/20, -1/10] : List ℚ).length : ℚ))
      ∧ ((∀ y ∈ ([1/5, 1/20, -1/10] : List ℚ), y ≤ 1/20)
          → computedRps [1/5, 1/20, -1/10] (1/20) = 100) :=
  rps_rank_spec.1 [1/5, 1/20, -1/10] (1/20) (by norm_num) (by norm_num)

/-- C1 counterexample: with two symbols tied at a 5% gain the batch writes
75.0 for each (pandas average rank), while the claimed fraction-based
formula gives 100 for both — the claim's equation fails on ties. -/
theorem rps_rank_ties_counterexample :
    computedRps [1/20, 1/20] (1/20) = 75
    ∧ 100 * ((([1/20, 1/20] : List ℚ).countP fun y => decide (y ≤ 1/20) : ℚ))
        / (([1/20, 1/20] : List ℚ).length : ℚ) = 100
    ∧ (75 : ℚ) ≠ 100 := by
  refine ⟨?_, ?_, by norm_num⟩
  · norm_num [computedRps, pandasPctRank, round2, roundHalfEven,
      List.countP_cons, List.count_cons]
  · norm_num [List.countP_cons]

theorem topPred_iff (w : Window) (r : RpsRecord) :
    topPred w r = true ↔ ∃ v, rpsOf w r = some v ∧ 90 ≤ v := by
  unfold topPred truthy
  rcases h : rpsOf w r with _ | v
  · simp
  · simp only [h, Bool.and_eq_true, decide_eq_true_eq, Option.getD_some]
    constructor
    · rintro ⟨_, h90⟩
      exact ⟨v, rfl, h90⟩
    · rintro ⟨v2, hv2, h90⟩
      cases hv2
      exact ⟨ne_of_gt (lt_of_lt_of_le (by norm_num) h90), h90⟩

/-- C7 (amended): each window's persisted top list contains exactly the
rows of `final_list` whose rank for that window exists and is ≥ 90, and is
sorted descending (non-strictly: rows with equal ranks are adjacent, in
which case the order is not strictly descending — see the counterexample);
the full persisted list is sorted descending by the `RPS_120` key (missing
ranks keyed `-1`) and is a permutation of its input rows. -/
theorem top_ranking_sets_spec :
    (∀ (w : Window) (finalList : List RpsRecord) (x : RpsRecord),
        x ∈ topList w finalList
          ↔ x ∈ finalList ∧ ∃ v, rpsOf w x = some v ∧ 90 ≤ v)
    ∧ (∀ (w : Window) (finalList : List RpsRecord),
        (topList w finalList).Pairwise (topLe w))
    ∧ (∀ (rs : List RpsRecord), (sortFullList rs).Pairwise fullLe)
    ∧ (∀ (rs : List RpsRecord), (sortFullList rs).Perm rs) := by
  refine ⟨fun w finalList x => ?_, fun w finalList => ?_, fun rs => ?_, fun rs => ?_⟩
  · unfold topList
    rw [List.mem_insertionSort, List.mem_filter, topPred_iff]
  · exact List.sorted_insertionSort (topLe w) _
  · exact List.sorted_insertionSort fullLe rs
  · exact List.perm_insertionSort fullLe rs

/-- A five-symbol batch population for the 50-day window with the top two
gains tied at 900%. -/
def ceResults : List FetchResult :=
  [⟨"A", "A", 1, "d", some 1, none, none⟩,
   ⟨"B", "B", 1, "d", some 2, none, none⟩,
   ⟨"C", "C", 1, "d", some 3, none, none⟩,
   ⟨"D", "D", 1, "d", some 9, none, none⟩,
   ⟨"E", "E", 1, "d", some 9, none, none⟩]

/-- C7 counterexample: running the rank / sort / top phase on `ceResults`
puts two records with the tied rank 90.0 in `top_50`, so the persisted top
list is not strictly descending. -/
theorem top_ranking_strict_counterexample :
    ((topList .w50 (sortFullList (addRps ceResults))).map (rpsOf .w50)
        = [some 90, some 90])
    ∧ ¬ List.Chain' (fun a b : ℚ => b < a)
        ((topList .w50 (sortFullList (addRps ceResults))).map
          fun r => (rpsOf .w50 r).getD 0) := by
  have h20 : computedRps [(1:ℚ), 2, 3, 9, 9] 1 = 20 := by
    norm_num [computedRps, pandasPctRank, round2, roundHalfEven,
      List.countP_cons, List.count_cons]
  have h40 : computedRps [(1:ℚ), 2, 3, 9, 9] 2 = 40 := by
    norm_num [computedRps, pandasPctRank, round2, roundHalfEven,
      List.countP_cons, List.count_cons]
  have h60 : computedRps [(1:ℚ), 2, 3, 9, 9] 3 = 60 := by
    norm_num [computedRps, pandasPctRank, round2, roundHalfEven,
      List.countP_cons, List.count_cons]
  have h90 : computedRps [(1:ℚ), 2, 3, 9, 9] 9 = 90 := by
    norm_num [computedRps, pandasPctRank, round2, roundHalfEven,
      List.countP_cons, List.count_cons]
  have hpct1 : round2 (100:ℚ) = 100 := by norm_num [round2, roundHalfEven]
  have hpct2 : round2 (200:ℚ) = 200 := by norm_num [round2, roundHalfEven]
  have hpct3 : round2 (300:ℚ) = 300 := by norm_num [round2, roundHalfEven]
  have hpct9 : round2 (900:ℚ) = 900 := by norm_num [round2, roundHalfEven]
  have ha : addRps ceResults =
      [⟨"A", "A", 1, "d", some 1, none, none, some 20, none, none, some 100, none, none⟩,
       ⟨"B", "B", 1, "d", some 2, none, none, some 40, none, none, some 200, none, none⟩,
       ⟨"C", "C", 1, "d", some 3, none, none, some 60, none, none, some 300, none, none⟩,
       ⟨"D", "D", 1, "d", some 9, none, none, some 90, none, none, some 900, none, none⟩,
       ⟨"E", "E", 1, "d", some 9, none, none, some 90, none, none, some 900, none, none⟩] := by
    simp only [addRps, ceResults, List.filterMap_cons, List.filterMap_nil, gainOf,
      List.map_cons, List.map_nil, Option.map_some, Option.map_none]
    norm_num [h20, h40, h60, h90, hpct1, hpct2, hpct3, hpct9]
  have hsortFull : sortFullList (addRps ceResults) = addRps ceResults := by
    unfold sortFullList
    apply List.Sorted.insertionSort_eq
    rw [ha]
    norm_num [List.pairwise_cons, fullLe, orMinus1]
  have hfilter : (addRps ceResults).filter (topPred .w50)
      = [⟨"D", "D", 1, "d", some 9, none, none, some 90, none, none, some 900, none, none⟩,
         ⟨"E", "E", 1, "d", some 9, none, none, some 90, none, none, some 900, none, none⟩] := by
    rw [ha]
    norm_num [List.filter_cons, topPred, truthy, rpsOf]
  have htl : topList .w50 (sortFullList (addRps ceResults))
      = [⟨"D", "D", 1, "d", some 9, none, none, some 90, none, none, some 900, none, none⟩,
         ⟨"E", "E", 1, "d", some 9, none, none, some 90, none, none, some 900, none, none⟩] := by
    unfold topList
    rw [hsortFull, hfilter]
    apply List.Sorted.insertionSort_eq
    norm_num [List.pairwise_cons, topLe, rpsOf]
  rw [htl]
  constructor
  · simp [rpsOf]
  · simp [rpsOf, List.chain'_cons]

theorem le_foldl_max (l : List ℚ) (a : ℚ) : a ≤ l.foldl max a := by
  induction l generalizing a with
  | nil => exact le_refl a
  | cons x xs ih => exact le_trans (le_max_left a x) (ih (max a x))

theorem mem_le_foldl_max (l : List ℚ) (a y : ℚ) (hy : y ∈ l) : y ≤ l.foldl max a := by
  induction l generalizing a with
  | nil => cases hy
  | cons x xs ih =>
    rcases List.mem_cons.mp hy with h | h
    · subst h
      exact le_trans (le_max_right a y) (le_foldl_max xs (max a y))
    · exact ih (max a x) h

theorem le_seriesMax (l : List ℚ) (y : ℚ) (hy : y ∈ l) : y ≤ seriesMax l := by
  cases l with
  | nil => cases hy
  | cons x xs =>
    rcases List.mem_cons.mp hy with h | h
    · subst h
      exact le_foldl_max xs y
    · exact mem_le_foldl_max xs x y h

theorem foldl_min_le (l : List ℚ) (a : ℚ) : l.foldl min a ≤ a := by
  induction l generalizing a with
  | nil => exact le_refl a
  | cons x xs ih => exact le_trans (ih (min a x)) (min_le_left a x)

theorem foldl_min_le_mem (l : List ℚ) (a y : ℚ) (hy : y ∈ l) : l.foldl min a ≤ y := by
  induction l generalizing a with
  | nil => cases hy
  | cons x xs ih =>
    rcases List.mem_cons.mp hy with h | h
    · subst h
      exact le_trans (foldl_min_le xs (min a y)) (min_le_right a y)
    · exact ih (min a x) h

theorem seriesMin_le (l : List ℚ) (y : ℚ) (hy : y ∈ l) : seriesMin l ≤ y := by
  cases l with
  | nil => cases hy
  | cons x xs =>
    rcases List.mem_cons.mp hy with h | h
    · subst h
      exact foldl_min_le xs y
    · exact foldl_min_le_mem xs x y h

theorem chipAdj_pos (q : ℚ) : 0 < (if q = 0 then 1/1000 else |q| / 1000) := by
  split_ifs with h0
  · norm_num
  · exact div_pos (abs_pos.mpr h0) (by norm_num)

theorem chipEdges_mono (mn mx : ℚ) (hle : mn ≤ mx) (i : ℕ) :
    chipEdges mn mx i ≤ chipEdges mn mx (i + 1) := by
  by_cases hd : mn = mx
  · simp only [chipEdges, if_pos hd]
    have hlo := chipAdj_pos mn
    have hhi := chipAdj_pos mx
    have hw : 0 ≤ ((mx + (if mx = 0 then 1/1000 else |mx| / 1000))
        - (mn - (if mn = 0 then 1/1000 else |mn| / 1000))) / 10 := by
      subst hd
      linarith
    have hcast : (i : ℚ) ≤ ((i + 1 : ℕ) : ℚ) := by push_cast; linarith
    have := mul_le_mul_of_nonneg_right hcast hw
    linarith
  · have hlt : mn < mx := lt_of_le_of_ne hle hd
    have hspan : 0 < mx - mn := sub_pos.mpr hlt
    rcases Nat.eq_zero_or_pos i with h0 | hpos
    · subst h0
      simp only [chipEdges, if_neg hd, if_pos rfl, if_neg (Nat.one_ne_zero)]
      push_cast
      linarith
    · have hne : i ≠ 0 := Nat.pos_iff_ne_zero.mp hpos
      simp only [chipEdges, if_neg hd, if_neg hne, if_neg (Nat.succ_ne_zero i)]
      have hcast : (i : ℚ) ≤ ((i + 1 : ℕ) : ℚ) := by push_cast; linarith
      have := mul_le_mul_of_nonneg_right hcast (le_of_lt (by positivity : (0:ℚ) < (mx - mn) / 10))
      linarith

theorem chipEdges_zero_lt (mn mx x : ℚ) (hle : mn ≤ mx) (hx : mn ≤ x) :
    chipEdges mn mx 0 < x := by
  by_cases hd : mn = mx
  · simp only [chipEdges, if_pos hd]
    have hlo := chipAdj_pos mn
    push_cast
    linarith
  · have hlt : mn < mx := lt_of_le_of_ne hle hd
    have hspan : 0 < mx - mn := sub_pos.mpr hlt
    simp only [chipEdges, if_neg hd, eq_self_iff_true, if_true]
    linarith

theorem le_chipEdges_ten (mn mx x : ℚ) (_hle : mn ≤ mx) (hx : x ≤ mx) :
    x ≤ chipEdges mn mx 10 := by
  by_cases hd : mn = mx
  · simp only [chipEdges, if_pos hd]
    have hhi := chipAdj_pos mx
    have hkey : (mn - (if mn = 0 then 1/1000 else |mn| / 1000))
        + ((10 : ℕ) : ℚ) * (((mx + (if mx = 0 then 1/1000 else |mx| / 1000))
            - (mn - (if mn = 0 then 1/1000 else |mn| / 1000))) / 10)
        = mx + (if mx = 0 then 1/1000 else |mx| / 1000) := by
      push_cast
      ring
    rw [hkey]
    linarith
  · simp only [chipEdges, if_neg hd, if_neg (by norm_num : (10 : ℕ) ≠ 0)]
    have hkey : mn + ((10 : ℕ) : ℚ) * ((mx - mn) / 10) = mx := by push_cast; ring
    rw [hkey]
    exact hx

theorem windowInd_partial (e : ℕ → ℚ) (x : ℚ) (hmono : ∀ i, e i ≤ e (i + 1))
    (hlo : e 0 < x) (j : ℕ) :
    (∑ i ∈ Finset.range j,
        if (decide (e i < x) && decide (x ≤ e (i + 1))) = true then 1 else 0)
      = if x ≤ e j then 1 else 0 := by
  induction j with
  | zero => simp [not_le.mpr hlo]
  | succ n ih =>
    rw [Finset.sum_range_succ, ih]
    by_cases hn : x ≤ e n
    · rw [if_pos hn, if_pos (le_trans hn (hmono n))]
      simp [not_lt.mpr hn]
    · rw [if_neg hn]
      by_cases hn1 : x ≤ e (n + 1)
      · simp [hn1, not_le.mp hn]
      · simp [hn1]

theorem countP_partition {α : Type} (p : ℕ → α → Bool) (n : ℕ) (l : List α)
    (h : ∀ x ∈ l, (∑ i ∈ Finset.range n, if p i x = true then 1 else 0) = 1) :
    (∑ i ∈ Finset.range n, l.countP (p i)) = l.length := by
  induction l with
  | nil => simp
  | cons a t ih =>
    simp only [List.countP_cons, List.length_cons]
    rw [Finset.sum_add_distrib, ih (fun x hx => h x (List.mem_cons_of_mem a hx)),
      h a (List.mem_cons_self a t)]

theorem sum_map_range (n : ℕ) (f : ℕ → ℚ) :
    ((List.range n).map f).sum = ∑ i ∈ Finset.range n, f i := by
  induction n with
  | zero => simp
  | succ m ih =>
    rw [List.range_succ, List.map_append, List.sum_append, Finset.sum_range_succ, ih]
    simp

theorem chipDist_props (closes : List ℚ) (hne : closes ≠ []) :
    (chipDist closes).length = 10 ∧ |(chipDist closes).sum - 1| ≤ 1/2000 := by
  refine ⟨by simp [chipDist], ?_⟩
  obtain ⟨c0, hc0⟩ : ∃ c, c ∈ closes := List.exists_mem_of_ne_nil closes hne
  have hle : seriesMin closes ≤ seriesMax closes :=
    le_trans (seriesMin_le closes c0 hc0) (le_seriesMax closes c0 hc0)
  have hcount : (∑ i ∈ Finset.range 10,
      closes.countP (inChipBucket (seriesMin closes) (seriesMax closes) i))
      = closes.length := by
    apply countP_partition
    intro x hx
    have h1 : chipEdges (seriesMin closes) (seriesMax closes) 0 < x :=
      chipEdges_zero_lt _ _ x hle (seriesMin_le closes x hx)
    have h2 : x ≤ chipEdges (seriesMin closes) (seriesMax closes) 10 :=
      le_chipEdges_ten _ _ x hle (le_seriesMax closes x hx)
    have hw := windowInd_partial (chipEdges (seriesMin closes) (seriesMax closes)) x
      (chipEdges_mono _ _ hle) h1 10
    rw [if_pos h2] at hw
    simpa [inChipBucket] using hw
  have hlen0 : (closes.length : ℚ) ≠ 0 := by
    have : 0 < closes.length := List.length_pos.mpr hne
    positivity
  have hfrac : (∑ i ∈ Finset.range 10,
      ((closes.countP (inChipBucket (seriesMin closes) (seriesMax closes) i) : ℚ)
        / (closes.length : ℚ))) = 1 := by
    rw [← Finset.sum_div]
    rw [show (∑ i ∈ Finset.range 10,
        ((closes.countP (inChipBucket (seriesMin closes) (seriesMax closes) i) : ℚ)))
      = ((∑ i ∈ Finset.range 10,
          closes.countP (inChipBucket (seriesMin closes) (seriesMax closes) i) : ℕ) : ℚ) by
        push_cast; rfl]
    rw [hcount, div_self hlen0]
  have hsum : (chipDist closes).sum = ∑ i ∈ Finset.range 10,
      round4 ((closes.countP (inChipBucket (seriesMin closes) (seriesMax closes) i) : ℚ)
        / (closes.length : ℚ)) := by
    unfold chipDist
    exact sum_map_range 10 _
  rw [hsum]
  have hdiff : (∑ i ∈ Finset.range 10,
      round4 ((closes.countP (inChipBucket (seriesMin closes) (seriesMax closes) i) : ℚ)
        / (closes.length : ℚ))) - 1
      = ∑ i ∈ Finset.range 10,
        (round4 ((closes.countP (inChipBucket (seriesMin closes) (seriesMax closes) i) : ℚ)
            / (closes.length : ℚ))
          - ((closes.countP (inChipBucket (seriesMin closes) (seriesMax closes) i) : ℚ)
            / (closes.length : ℚ))) := by
    rw [Finset.sum_sub_distrib, hfrac]
  rw [hdiff]
  calc |∑ i ∈ Finset.range 10,
      (round4 ((closes.countP (inChipBucket (seriesMin closes) (seriesMax closes) i) : ℚ)
          / (closes.length : ℚ))
        - ((closes.countP (inChipBucket (seriesMin closes) (seriesMax closes) i) : ℚ)
          / (closes.length : ℚ)))|
      ≤ ∑ i ∈ Finset.range 10,
        |round4 ((closes.countP (inChipBucket (seriesMin closes) (seriesMax closes) i) : ℚ)
            / (closes.length : ℚ))
          - ((closes.countP (inChipBucket (seriesMin closes) (seriesMax closes) i) : ℚ)
            / (closes.length : ℚ))| := Finset.abs_sum_le_sum_abs _ _
    _ ≤ ∑ _i ∈ Finset.range 10, (1/20000 : ℚ) :=
        Finset.sum_le_sum fun i _ => abs_round4_sub_le _
    _ = 1/2000 := by simp [Finset.sum_const]; norm_num

/-- C8: on a history of at least 120 rows the pipeline returns a bundle
whose chip distribution has exactly 10 buckets (equal-width partition of
the trailing-120-close range as built by `chipEdges`), each fraction
rounded to 4 decimals, and the 10 fractions sum to 1 within 0.001 (the
proof gives the sharper bound 0.0005). -/
theorem chip_distribution_spec (sqrtQ : ℚ → ℚ) (rpsInfo : RpsInfo)
    (rows : List OhlcRow) (h : 120 ≤ rows.length) :
    get_stock_indicators sqrtQ rpsInfo (some rows)
        = .bundle (bundleOf sqrtQ rpsInfo rows)
    ∧ (bundleOf sqrtQ rpsInfo rows).chipDistribution.length = 10
    ∧ |(bundleOf sqrtQ rpsInfo rows).chipDistribution.sum - 1| ≤ 1/1000 := by
  have hlen : (tailN 120 (rows.map OhlcRow.close)).length = 120 := by
    simp only [tailN, List.length_drop, List.length_map]
    omega
  have hne : tailN 120 (rows.map OhlcRow.close) ≠ [] := by
    intro hnil
    rw [hnil] at hlen
    simp at hlen
  have hchips : (bundleOf sqrtQ rpsInfo rows).chipDistribution
      = chipDist (tailN 120 (rows.map OhlcRow.close)) := by
    simp [bundleOf]
  have hchip := chipDist_props _ hne
  refine ⟨by simp [get_stock_indicators, not_lt.mpr h], ?_, ?_⟩
  · rw [hchips]
    exact hchip.1
  · rw [hchips]
    exact le_trans hchip.2 (by norm_num)

/-- Witness for C8 at a 120-day constant-price history. -/
theorem chip_distribution_spec_witness :
    get_stock_indicators (fun q => q) ⟨none, none, none⟩
        (some (List.replicate 120 ⟨"2024-01-01", 1, 1, 1, 1, 1⟩))
        = .bundle (bundleOf (fun q => q) ⟨none, none, none⟩
            (List.replicate 120 ⟨"2024-01-01", 1, 1, 1, 1, 1⟩))
    ∧ (bundleOf (fun q => q) ⟨none, none, none⟩
        (List.replicate 120 ⟨"2024-01-01", 1, 1, 1, 1, 1⟩)).chipDistribution.length = 10
    ∧ |(bundleOf (fun q => q) ⟨none, none, none⟩
        (List.replicate 120 ⟨"2024-01-01", 1, 1, 1, 1, 1⟩)).chipDistribution.sum - 1|
      ≤ 1/1000 :=
  chip_distribution_spec (fun q => q) ⟨none, none, none⟩
    (List.replicate 120 ⟨"2024-01-01", 1, 1, 1, 1, 1⟩) (by simp)
